import Mathlib

/-!
Verification development for the odpf/salt repository.

The development shallowly embeds the layered configuration resolver of
`config/config.go` (the `Loader` facade, its construction options, the
key flattener, the three ranked value sources and the `Load` pipeline)
and the structured-field helper `getFields` of `log/logrus.go`.

Go runtime values are embedded as an inductive `CVal`; a configuration
schema instance (a possibly nested Go struct together with its `default`
tags) is embedded as the mutual inductives `SField`/`SFields`; machinery
of the external libraries used by `Load` (spf13/viper, mcuadros/go-defaults,
mitchellh/mapstructure, jeremywohl/flatten) is not part of this repository
and is modelled from the specification, as noted on each such definition.
-/

/-! ## String helpers

Executable ASCII uppercase and all-occurrence substring replacement,
standing for Go `strings.ToUpper` and `strings.NewReplacer(old, new).Replace`
as used on configuration keys (which are ASCII). -/

/-- ASCII uppercase of one character. -/
def upChar (c : Char) : Char :=
  if c.toNat ≥ 97 && c.toNat ≤ 122 then Char.ofNat (c.toNat - 32) else c

/-- ASCII uppercase of a string; stands for Go `strings.ToUpper`. -/
def strUpper (s : String) : String := ⟨s.data.map upChar⟩

/-- Fuel-indexed worker replacing every non-overlapping occurrence of `old`
by `new`, scanning left to right as Go `strings.Replacer` does. -/
def replaceFuel (old new : List Char) : Nat → List Char → List Char
  | 0, s => s
  | _ + 1, [] => []
  | fuel + 1, c :: rest =>
    if old.isPrefixOf (c :: rest) then
      new ++ replaceFuel old new fuel (List.drop (old.length - 1) rest)
    else
      c :: replaceFuel old new fuel rest

/-- Replace every occurrence of `old` by `new` in `s`; stands for Go
`strings.NewReplacer(old, new).Replace(s)` (an empty `old` matches nothing). -/
def strReplace (s old new : String) : String :=
  if old = "" then s else ⟨replaceFuel old.data new.data s.data.length s.data⟩

/-! ## Go values and schema instances -/

/-- A Go runtime value as it appears in configuration: scalar leaves, plus
string-keyed maps and slices, which the key flattener treats as opaque.
Type coercion between sources happens at decode time and is outside the
claims, so one value universe serves environment, file and field values. -/
inductive CVal where
  | vStr (s : String)
  | vInt (n : Int)
  | vBool (b : Bool)
  | vStrMap (entries : List (String × String))
  | vStrSlice (elems : List String)
deriving DecidableEq, Repr

/-- Whether a value is the Go zero value of its type (empty string, 0,
false, nil map, nil slice). `mcuadros/go-defaults` fills a field from its
`default` tag only when the field currently holds its zero value. -/
def CVal.isZeroV : CVal → Bool
  | .vStr s => s = ""
  | .vInt n => n = 0
  | .vBool b => b = false
  | .vStrMap es => es.isEmpty
  | .vStrSlice es => es.isEmpty

mutual
/-- One field of a schema instance: a scalar leaf with its current value
and optional declared default (`default` struct tag), an opaque box (a
map- or slice-typed field, which the flattener does not enter), or a
nested struct. -/
inductive SField where
  | leaf (cur : CVal) (dflt : Option CVal)
  | box (cur : CVal) (dflt : Option CVal)
  | node (sub : SFields)
/-- The named fields of a struct, in declaration order. -/
inductive SFields where
  | nil
  | cons (name : String) (f : SField) (rest : SFields)
end

/-- Dot-join of a path and a field name, as `jeremywohl/flatten` DotStyle
builds keys: the empty path prefixes nothing. -/
def joinPath (p n : String) : String := if p = "" then n else p ++ "." ++ n

/-- Extend a path by a list of segments. -/
def pathApp (p : String) (segs : List String) : String := segs.foldl joinPath p

mutual
/-- Modelled from the spec: the flattening of one field at path `p`, the
composition of `mapstructure.Decode` into a generic map and
`flatten.Flatten` with DotStyle performed by `getFlattenedStructKeys`
(both libraries are external to the repository). Nested structs are
entered; leaves and map/slice fields contribute their own path. -/
def flattenKeysF : SField → String → List String
  | .node sub, p => flattenKeysL sub p
  | _, p => [p]
/-- Flattening of a struct field list under path `p`. -/
def flattenKeysL : SFields → String → List String
  | .nil, _ => []
  | .cons n f rest, p => flattenKeysF f (joinPath p n) ++ flattenKeysL rest p
end

/-- The key set derived from a schema instance, as `getFlattenedStructKeys`
in `config/config.go` returns it (top-level fields have no path before them). -/
def getFlattenedStructKeys (flds : SFields) : List String := flattenKeysL flds ""

/-- Field of a struct list at a non-empty dot path, descending through
nested structs; the first field with a matching name wins, and a path that
tries to descend below a leaf or box yields nothing. -/
def lookupPathL : SFields → List String → Option SField
  | .nil, _ => none
  | .cons _ _ _, [] => none
  | .cons n f rest, s :: ss =>
    if n = s then
      match ss with
      | [] => some f
      | _ :: _ =>
        match f with
        | .node sub => lookupPathL sub ss
        | _ => none
    else lookupPathL rest (s :: ss)

/-- Value of one field after default application: a zero-valued field
receives its declared default, when one is declared. -/
def sdVal (cur : CVal) (d : Option CVal) : CVal :=
  if cur.isZeroV then d.getD cur else cur

mutual
/-- Modelled from the spec: `defaults.SetDefaults` of `mcuadros/go-defaults`
(external to the repository) applied to one field: a leaf or box whose
current value is its zero value receives its declared default, when one is
declared; nested structs are filled recursively. -/
def setDefaultsF : SField → SField
  | .leaf cur d => .leaf (sdVal cur d) d
  | .box cur d => .box (sdVal cur d) d
  | .node sub => .node (setDefaultsL sub)
/-- `setDefaultsF` over a struct field list. -/
def setDefaultsL : SFields → SFields
  | .nil => .nil
  | .cons n f rest => .cons n (setDefaultsF f) (setDefaultsL rest)
end

/-! ## The viper instance and the loader -/

/-- The environment variable table of the process. -/
def EnvTable : Type := String → Option CVal

/-- Result of finding a configuration file: it parses into a flat
key-to-value mapping, or it is malformed. -/
inductive FileRes where
  | parsed (settings : List (String × CVal))
  | malformed

/-- The file system, as a finite mapping from full file path to file. -/
def Fs : Type := List (String × FileRes)

/-- Modelled from the spec: the state of a `spf13/viper` instance
(external to the repository) as far as `config/config.go` exercises it:
the config file name, ordered search paths and type, the environment
prefix and key replacer pair, whether `AutomaticEnv` was enabled, the set
of keys bound by `BindEnv`, and the settings read from the file. -/
structure Viper where
  configName : String
  configPaths : List String
  configType : String
  envPfx : String
  replOld : String
  replNew : String
  automaticEnv : Bool
  boundKeys : List String
  fileSettings : List (String × CVal)

/-- The loader owns one viper instance, as `type Loader struct` does. -/
structure Loader where
  v : Viper

/-- A construction option mutates the loader, as `type LoaderOption func(*Loader)`. -/
def LoaderOption : Type := Loader → Loader

/-- Fresh viper instance as configured by `getViperWithDefaults`:
config name "config", single search path "./", type "yaml", and the
environment key replacer mapping "." to "_". A fresh viper has no prefix,
no automatic environment, no bound keys and no file settings. -/
def getViperWithDefaults : Viper :=
  { configName := "config"
    configPaths := ["./"]
    configType := "yaml"
    envPfx := ""
    replOld := "."
    replNew := "_"
    automaticEnv := false
    boundKeys := []
    fileSettings := [] }

/-- `WithViper` sets the given viper instance instead of the configured one. -/
def WithViper (vin : Viper) : LoaderOption := fun _ => ⟨vin⟩

/-- `WithConfigName` sets the file name of the config file without extension. -/
def WithConfigName (s : String) : LoaderOption :=
  fun l => ⟨{ l.v with configName := s }⟩

/-- `WithConfigPath` adds a config path to search the config file in
(viper `AddConfigPath` appends to the ordered search list). -/
def WithConfigPath (s : String) : LoaderOption :=
  fun l => ⟨{ l.v with configPaths := l.v.configPaths ++ [s] }⟩

/-- `WithConfigType` sets the type, and hence extension, of the config file. -/
def WithConfigType (s : String) : LoaderOption :=
  fun l => ⟨{ l.v with configType := s }⟩

/-- Embeds the env-prefix construction option of `config/config.go`,
setting the prefix for keys when checking configs in environment variables. -/
def WithEnvPfx (s : String) : LoaderOption :=
  fun l => ⟨{ l.v with envPfx := s }⟩

/-- `WithEnvKeyReplacer` sets the old/new replacement pair applied to keys
when deriving environment variable names. -/
def WithEnvKeyReplacer (o n : String) : LoaderOption :=
  fun l => ⟨{ l.v with replOld := o, replNew := n }⟩

/-- `NewLoader` starts from the default viper instance and applies the
given options in order. -/
def NewLoader (opts : List LoaderOption) : Loader :=
  opts.foldl (fun l o => o l) ⟨getViperWithDefaults⟩

/-- The configured replacement rule applied to a key. -/
def applyReplacer (v : Viper) (s : String) : String :=
  strReplace s v.replOld v.replNew

/-- Modelled from the spec: the environment variable name consulted for a
key, `UPPER(PREFIX + "_" + REPLACE(key))` with the configured replacement
rule; with no prefix configured the name is `UPPER(REPLACE(key))`
(viper `mergeWithEnvPrefix` composed with its key replacer). -/
def mergeWithEnvPfx (v : Viper) (key : String) : String :=
  if v.envPfx = "" then strUpper (applyReplacer v key)
  else strUpper (v.envPfx ++ "_" ++ applyReplacer v key)

/-- Insertion of a key into the set of bound keys. -/
def bindKeys (bs : List String) (key : String) : List String :=
  if bs.contains key then bs else key :: bs

/-- Modelled from the spec: registering a key for environment lookup
(viper `BindEnv` as used with a single argument) is idempotent —
registering the same path twice has no additional effect. -/
def bindEnv (v : Viper) (key : String) : Viper :=
  { v with boundKeys := bindKeys v.boundKeys key }

/-- Modelled from the spec: merged lookup of one key. The environment is
consulted (live) when `AutomaticEnv` is enabled or the key is bound, and
ranks above the file settings; a key no source supplies yields nothing,
leaving the decoded field at its current (defaulted) value. -/
def vFind (v : Viper) (env : EnvTable) (key : String) : Option CVal :=
  if v.automaticEnv || v.boundKeys.contains key then
    match env (mergeWithEnvPfx v key) with
    | some x => some x
    | none => List.lookup key v.fileSettings
  else List.lookup key v.fileSettings

mutual
/-- Modelled from the spec: viper `Unmarshal` through `mapstructure`
(external to the repository) on one field at path `p`: a leaf or box whose
key some source supplies is overwritten with the merged value; a field no
source supplies keeps its current value; nested structs decode recursively. -/
def unmarshalF (v : Viper) (env : EnvTable) (p : String) : SField → SField
  | .leaf cur d => .leaf ((vFind v env p).getD cur) d
  | .box cur d => .box ((vFind v env p).getD cur) d
  | .node sub => .node (unmarshalL v env p sub)
/-- `unmarshalF` over a struct field list under path `p`. -/
def unmarshalL (v : Viper) (env : EnvTable) (p : String) : SFields → SFields
  | .nil => .nil
  | .cons n f rest =>
    .cons n (unmarshalF v env (joinPath p n) f) (unmarshalL v env p rest)
end

/-- The target passed to `Load`: a pointer to a struct instance, a pointer
to something else (including the invalid kind obtained from a nil pointer),
or a non-pointer of some kind. -/
inductive Tgt where
  | ptrStruct (flds : SFields)
  | ptrOther (kind : String)
  | nonPtr (kind : String)

/-- The errors `Load` can return in this embedding. -/
inductive LoadErr where
  | invalidTarget (msg : String)
  | configFileParse
deriving DecidableEq

/-- `verifyParamIsPtrToStructElsePanic`: a non-pointer, or a pointer to a
non-struct, is rejected with the corresponding message. -/
def verifyParamIsPtrToStructElsePanic : Tgt → Option LoadErr
  | .ptrStruct _ => none
  | .ptrOther k =>
    some (.invalidTarget ("require ptr to a struct for Load. got ptr to " ++ k))
  | .nonPtr k =>
    some (.invalidTarget ("require ptr to a struct for Load. Got " ++ k))

/-- Outcome of a `Load` call: the returned error if any, the target as the
call leaves it, and the loader (whose viper instance the call mutated). -/
structure LoadOut where
  err : Option LoadErr
  target : Tgt
  loader : Loader

/-- The file name viper searches for: `<config-name>.<config-type>`. -/
def cfgFileName (v : Viper) : String := v.configName ++ "." ++ v.configType

/-- First matching config file over the ordered search paths (viper
`ReadInConfig` discovery); the full path of a candidate is the search
directory followed by the file name. -/
def findConfigFile (paths : List String) (fname : String) (fs : Fs) : Option FileRes :=
  match paths with
  | [] => none
  | p :: rest =>
    match List.lookup (p ++ fname) fs with
    | some r => some r
    | none => findConfigFile rest fname fs

/-- The tail of `Load` after the config file was read: flatten the target
into its key set, bind each key for environment lookup, apply declared
defaults onto the target, and unmarshal the merged view into it. -/
def loadRest (l : Loader) (env : EnvTable) (flds : SFields) : LoadOut :=
  let keys := getFlattenedStructKeys flds
  let v3 := keys.foldl bindEnv l.v
  ⟨none, .ptrStruct (unmarshalL v3 env "" (setDefaultsL flds)), ⟨v3⟩⟩

/-- `Load` on a valid target: enable automatic environment, read the
config file (absence is not an error; a malformed file is), then bind,
default and unmarshal. -/
def loadStruct (l : Loader) (fs : Fs) (env : EnvTable) (flds : SFields) : LoadOut :=
  let v1 := { l.v with automaticEnv := true }
  match findConfigFile v1.configPaths (cfgFileName v1) fs with
  | some .malformed => ⟨some .configFileParse, .ptrStruct flds, ⟨v1⟩⟩
  | some (.parsed s) => loadRest ⟨{ v1 with fileSettings := s }⟩ env flds
  | none => loadRest ⟨v1⟩ env flds

/-- `Load` of `config/config.go`: an invalid target is rejected before any
file or environment access; a valid one goes through the pipeline. -/
def Load (l : Loader) (fs : Fs) (env : EnvTable) (t : Tgt) : LoadOut :=
  match t with
  | .ptrStruct flds => loadStruct l fs env flds
  | .ptrOther k => ⟨verifyParamIsPtrToStructElsePanic (.ptrOther k), t, l⟩
  | .nonPtr k => ⟨verifyParamIsPtrToStructElsePanic (.nonPtr k), t, l⟩

/-! ## Auxiliary predicates on schema instances -/

/-- Whether a field is a flattening leaf: a scalar leaf or an opaque
map/slice box. -/
def isLeafLike : SField → Bool
  | .node _ => false
  | _ => true

/-- The names of the fields of a struct, in order. -/
def namesOf : SFields → List String
  | .nil => []
  | .cons n _ rest => n :: namesOf rest

/-- No duplicates in a list of names. -/
def nodupB : List String → Bool
  | [] => true
  | x :: xs => !(xs.contains x) && nodupB xs

mutual
/-- Field names are duplicate-free at every nesting level, as Go struct
types guarantee. -/
def wfNamesF : SField → Bool
  | .node sub => wfNamesL sub
  | _ => true
/-- `wfNamesF` over a struct field list. -/
def wfNamesL : SFields → Bool
  | .nil => true
  | .cons n f rest => wfNamesF f && !((namesOf rest).contains n) && wfNamesL rest
end

mutual
/-- Every leaf and box currently holds the zero value of its type (a
freshly declared target). -/
def allZeroF : SField → Bool
  | .leaf cur _ => cur.isZeroV
  | .box cur _ => cur.isZeroV
  | .node sub => allZeroL sub
/-- `allZeroF` over a struct field list. -/
def allZeroL : SFields → Bool
  | .nil => true
  | .cons _ f rest => allZeroF f && allZeroL rest
end

/-! ## Lemmas on key binding -/

theorem bindKeys_contains_self (bs : List String) (k : String) :
    (bindKeys bs k).contains k = true := by
  unfold bindKeys
  split
  · assumption
  · simp [List.contains_cons]

theorem bindKeys_contains_mono (bs : List String) (k j : String)
    (h : bs.contains j = true) : (bindKeys bs k).contains j = true := by
  unfold bindKeys
  split
  · exact h
  · simp at h ⊢
    exact Or.inr h

theorem bindKeys_noop (bs : List String) (k : String)
    (h : bs.contains k = true) : bindKeys bs k = bs := by
  unfold bindKeys
  simp at h
  simp [h]

theorem foldl_bindKeys_mono : ∀ (keys : List String) (bs : List String) (j : String),
    bs.contains j = true → (keys.foldl bindKeys bs).contains j = true
  | [], _, _, h => h
  | k :: ks, bs, j, h => by
    rw [List.foldl_cons]
    exact foldl_bindKeys_mono ks (bindKeys bs k) j (bindKeys_contains_mono bs k j h)

theorem mem_foldl_bindKeys : ∀ (keys : List String) (bs : List String) (k : String),
    k ∈ keys → (keys.foldl bindKeys bs).contains k = true
  | [], _, _, h => absurd h (List.not_mem_nil _)
  | j :: ks, bs, k, h => by
    rw [List.foldl_cons]
    rcases List.mem_cons.mp h with h1 | h2
    · subst h1
      exact foldl_bindKeys_mono ks (bindKeys bs k) k (bindKeys_contains_self bs k)
    · exact mem_foldl_bindKeys ks (bindKeys bs j) k h2

theorem foldl_bindKeys_noop : ∀ (keys : List String) (bs : List String),
    (∀ k ∈ keys, bs.contains k = true) → keys.foldl bindKeys bs = bs
  | [], _, _ => rfl
  | k :: ks, bs, h => by
    rw [List.foldl_cons, bindKeys_noop bs k (h k (List.mem_cons_self k ks))]
    exact foldl_bindKeys_noop ks bs (fun j hj => h j (List.mem_cons_of_mem k hj))

theorem foldl_bindEnv_eq : ∀ (keys : List String) (v : Viper),
    keys.foldl bindEnv v = { v with boundKeys := keys.foldl bindKeys v.boundKeys }
  | [], _ => rfl
  | k :: ks, v => by
    rw [List.foldl_cons, List.foldl_cons]
    exact foldl_bindEnv_eq ks (bindEnv v k)

theorem viperEta_auto (v : Viper) (h : v.automaticEnv = true) :
    { v with automaticEnv := true } = v := by
  cases v
  simp only at h
  subst h
  rfl

theorem viperEta_fileSettings (v : Viper) (s : List (String × CVal))
    (h : v.fileSettings = s) : { v with fileSettings := s } = v := by
  cases v
  simp only at h
  subst h
  rfl

/-! ## Lemmas on default application and unmarshalling -/

theorem sdVal_idem (cur : CVal) (d : Option CVal) :
    sdVal (sdVal cur d) d = sdVal cur d := by
  unfold sdVal
  split
  · cases d with
    | none => simp_all
    | some x => simp_all [Option.getD]
  · simp_all

theorem umVal_sd_stable (o : Option CVal) (cur : CVal) (d : Option CVal) :
    o.getD (sdVal (o.getD (sdVal cur d)) d) = o.getD (sdVal cur d) := by
  cases o with
  | none => exact sdVal_idem cur d
  | some x => rfl

mutual
theorem flatten_sdF : ∀ (f : SField) (p : String),
    flattenKeysF (setDefaultsF f) p = flattenKeysF f p
  | .leaf _ _, _ => rfl
  | .box _ _, _ => rfl
  | .node sub, p => by
    simp only [setDefaultsF, flattenKeysF]
    exact flatten_sdL sub p
theorem flatten_sdL : ∀ (l : SFields) (p : String),
    flattenKeysL (setDefaultsL l) p = flattenKeysL l p
  | .nil, _ => rfl
  | .cons n f rest, p => by
    simp only [setDefaultsL, flattenKeysL]
    rw [flatten_sdF f, flatten_sdL rest]
end

mutual
theorem flatten_umF (v : Viper) (env : EnvTable) : ∀ (f : SField) (q p : String),
    flattenKeysF (unmarshalF v env q f) p = flattenKeysF f p
  | .leaf _ _, _, _ => rfl
  | .box _ _, _, _ => rfl
  | .node sub, q, p => by
    simp only [unmarshalF, flattenKeysF]
    exact flatten_umL v env sub q p
theorem flatten_umL (v : Viper) (env : EnvTable) : ∀ (l : SFields) (q p : String),
    flattenKeysL (unmarshalL v env q l) p = flattenKeysL l p
  | .nil, _, _ => rfl
  | .cons n f rest, q, p => by
    simp only [unmarshalL, flattenKeysL]
    rw [flatten_umF v env f, flatten_umL v env rest]
end

theorem lookup_sdL : ∀ (l : SFields) (segs : List String),
    lookupPathL (setDefaultsL l) segs = (lookupPathL l segs).map setDefaultsF
  | .nil, _ => rfl
  | .cons n f rest, [] => rfl
  | .cons n f rest, s :: ss => by
    rw [setDefaultsL, lookupPathL.eq_def, lookupPathL.eq_def]
    dsimp only []
    split
    · cases ss with
      | nil => rfl
      | cons a b =>
        cases f with
        | leaf cur d => rfl
        | box cur d => rfl
        | node sub =>
          simp only [setDefaultsF]
          exact lookup_sdL sub (a :: b)
    · exact lookup_sdL rest (s :: ss)

theorem lookup_umL (v : Viper) (env : EnvTable) : ∀ (l : SFields) (segs : List String) (p : String),
    lookupPathL (unmarshalL v env p l) segs =
      (lookupPathL l segs).map (unmarshalF v env (pathApp p segs))
  | .nil, _, _ => rfl
  | .cons n f rest, [], _ => rfl
  | .cons n f rest, s :: ss, p => by
    rw [unmarshalL, lookupPathL.eq_def, lookupPathL.eq_def]
    dsimp only []
    split
    · rename_i hns
      cases ss with
      | nil =>
        rw [hns]
        rfl
      | cons a b =>
        cases f with
        | leaf cur d => rfl
        | box cur d => rfl
        | node sub =>
          simp only [unmarshalF]
          rw [lookup_umL v env sub (a :: b) (joinPath p n)]
          rw [hns]
          rfl
    · exact lookup_umL v env rest (s :: ss) p

mutual
theorem um_noopF (v : Viper) (env : EnvTable) : ∀ (f : SField) (p : String),
    (∀ k ∈ flattenKeysF f p, vFind v env k = none) → unmarshalF v env p f = f
  | .leaf cur d, p, h => by
    have hp : vFind v env p = none := h p (by simp [flattenKeysF])
    simp [unmarshalF, hp]
  | .box cur d, p, h => by
    have hp : vFind v env p = none := h p (by simp [flattenKeysF])
    simp [unmarshalF, hp]
  | .node sub, p, h => by
    simp only [unmarshalF]
    rw [um_noopL v env sub p (by simpa [flattenKeysF] using h)]
theorem um_noopL (v : Viper) (env : EnvTable) : ∀ (l : SFields) (p : String),
    (∀ k ∈ flattenKeysL l p, vFind v env k = none) → unmarshalL v env p l = l
  | .nil, _, _ => rfl
  | .cons n f rest, p, h => by
    simp only [unmarshalL]
    rw [um_noopF v env f (joinPath p n)
        (fun k hk => h k (by simp only [flattenKeysL, List.mem_append]; exact Or.inl hk)),
      um_noopL v env rest p
        (fun k hk => h k (by simp only [flattenKeysL, List.mem_append]; exact Or.inr hk))]
end

mutual
theorem um_sd_stableF (v : Viper) (env : EnvTable) : ∀ (f : SField) (p : String),
    unmarshalF v env p (setDefaultsF (unmarshalF v env p (setDefaultsF f))) =
      unmarshalF v env p (setDefaultsF f)
  | .leaf cur d, p => by
    simp only [setDefaultsF, unmarshalF]
    rw [umVal_sd_stable]
  | .box cur d, p => by
    simp only [setDefaultsF, unmarshalF]
    rw [umVal_sd_stable]
  | .node sub, p => by
    simp only [setDefaultsF, unmarshalF]
    rw [um_sd_stableL v env sub p]
theorem um_sd_stableL (v : Viper) (env : EnvTable) : ∀ (l : SFields) (p : String),
    unmarshalL v env p (setDefaultsL (unmarshalL v env p (setDefaultsL l))) =
      unmarshalL v env p (setDefaultsL l)
  | .nil, _ => rfl
  | .cons n f rest, p => by
    simp only [setDefaultsL, unmarshalL]
    rw [um_sd_stableF v env f (joinPath p n), um_sd_stableL v env rest p]
end

theorem vFind_auto (v : Viper) (h : v.automaticEnv = true) (env : EnvTable) (key : String) :
    vFind v env key =
      match env (mergeWithEnvPfx v key) with
      | some x => some x
      | none => List.lookup key v.fileSettings := by
  unfold vFind
  rw [h]
  simp

theorem vFind_auto_env (v : Viper) (h : v.automaticEnv = true) (env : EnvTable)
    (key : String) (x : CVal) (hx : env (mergeWithEnvPfx v key) = some x) :
    vFind v env key = some x := by
  rw [vFind_auto v h env key, hx]

theorem vFind_auto_noenv (v : Viper) (h : v.automaticEnv = true) (env : EnvTable)
    (key : String) (hx : env (mergeWithEnvPfx v key) = none) :
    vFind v env key = List.lookup key v.fileSettings := by
  rw [vFind_auto v h env key, hx]

/-! ## Characterisation of the flattened key set -/

theorem lookup_nil_path (l : SFields) : lookupPathL l [] = none := by
  cases l <;> rfl

theorem lookup_head_mem : ∀ (l : SFields) (s : String) (ss : List String) (f : SField),
    lookupPathL l (s :: ss) = some f → s ∈ namesOf l
  | .nil, _, _, _, h => by simp [lookupPathL] at h
  | .cons n f0 rest, s, ss, f, h => by
    rw [lookupPathL.eq_def] at h
    dsimp only [] at h
    by_cases hns : n = s
    · subst hns
      simp [namesOf]
    · rw [if_neg hns] at h
      simp only [namesOf, List.mem_cons]
      exact Or.inr (lookup_head_mem rest s ss f h)

theorem mem_flattenL_iff : ∀ (l : SFields) (p k : String), wfNamesL l = true →
    (k ∈ flattenKeysL l p ↔
      ∃ segs f, lookupPathL l segs = some f ∧ isLeafLike f = true ∧ k = pathApp p segs)
  | .nil, p, k, _ => by
    simp [flattenKeysL, lookupPathL]
  | .cons n f rest, p, k, hwf => by
    have hw := hwf
    rw [wfNamesL] at hw
    simp only [Bool.and_eq_true] at hw
    obtain ⟨⟨hf, hnc⟩, hrest⟩ := hw
    have hnotin : n ∉ namesOf rest := by
      intro hn
      simp [hn] at hnc
    constructor
    · intro hk
      rw [flattenKeysL] at hk
      rcases List.mem_append.mp hk with hkl | hkr
      · cases f with
        | leaf cur d =>
          simp only [flattenKeysF, List.mem_singleton] at hkl
          refine ⟨[n], .leaf cur d, ?_, rfl, hkl⟩
          rw [lookupPathL.eq_def]
          simp
        | box cur d =>
          simp only [flattenKeysF, List.mem_singleton] at hkl
          refine ⟨[n], .box cur d, ?_, rfl, hkl⟩
          rw [lookupPathL.eq_def]
          simp
        | node sub =>
          rw [flattenKeysF] at hkl
          have hfs : wfNamesL sub = true := by
            rw [wfNamesF] at hf
            exact hf
          obtain ⟨segs', f', hl, hleaf, hkey⟩ :=
            (mem_flattenL_iff sub (joinPath p n) k hfs).mp hkl
          cases segs' with
          | nil => rw [lookup_nil_path] at hl; cases hl
          | cons a b =>
            refine ⟨n :: a :: b, f', ?_, hleaf, hkey⟩
            rw [lookupPathL.eq_def]
            simp only [if_pos rfl]
            exact hl
      · obtain ⟨segs', f', hl, hleaf, hkey⟩ :=
          (mem_flattenL_iff rest p k hrest).mp hkr
        cases segs' with
        | nil => rw [lookup_nil_path] at hl; cases hl
        | cons s ss =>
          have hsn : n ≠ s := by
            intro he
            exact hnotin (he ▸ lookup_head_mem rest s ss f' hl)
          refine ⟨s :: ss, f', ?_, hleaf, hkey⟩
          rw [lookupPathL.eq_def]
          dsimp only []
          rw [if_neg hsn]
          exact hl
    · rintro ⟨segs, f', hl, hleaf, hkey⟩
      cases segs with
      | nil => rw [lookup_nil_path] at hl; cases hl
      | cons s ss =>
        rw [lookupPathL.eq_def] at hl
        dsimp only [] at hl
        rw [flattenKeysL, List.mem_append]
        by_cases hns : n = s
        · rw [if_pos hns] at hl
          cases ss with
          | nil =>
            left
            have hff : f = f' := by
              injection hl
            subst hff
            subst hns
            cases f with
            | leaf cur d => simp [flattenKeysF, hkey, pathApp]
            | box cur d => simp [flattenKeysF, hkey, pathApp]
            | node sub => rw [isLeafLike] at hleaf; cases hleaf
          | cons a b =>
            cases f with
            | leaf cur d => cases hl
            | box cur d => cases hl
            | node sub =>
              left
              rw [flattenKeysF]
              have hfs : wfNamesL sub = true := by
                rw [wfNamesF] at hf
                exact hf
              refine (mem_flattenL_iff sub (joinPath p n) k hfs).mpr ⟨a :: b, f', hl, hleaf, ?_⟩
              rw [hkey, hns]
              rfl
        · rw [if_neg hns] at hl
          right
          exact (mem_flattenL_iff rest p k hrest).mpr ⟨s :: ss, f', hl, hleaf, hkey⟩

/-! ## Pipeline lemmas for Load -/

theorem merge_congr (v v' : Viper) (h1 : v.envPfx = v'.envPfx)
    (h2 : v.replOld = v'.replOld) (h3 : v.replNew = v'.replNew) (key : String) :
    mergeWithEnvPfx v key = mergeWithEnvPfx v' key := by
  unfold mergeWithEnvPfx applyReplacer
  rw [h1, h2, h3]

theorem loadStruct_parsed (l : Loader) (fs : Fs) (env : EnvTable) (flds : SFields)
    (s : List (String × CVal))
    (hfile : findConfigFile l.v.configPaths (cfgFileName l.v) fs = some (.parsed s)) :
    loadStruct l fs env flds =
      loadRest ⟨{ l.v with automaticEnv := true, fileSettings := s }⟩ env flds := by
  simp only [loadStruct]
  have h : findConfigFile ({ l.v with automaticEnv := true } : Viper).configPaths
      (cfgFileName { l.v with automaticEnv := true }) fs = some (.parsed s) := hfile
  rw [h]

theorem loadStruct_notfound (l : Loader) (fs : Fs) (env : EnvTable) (flds : SFields)
    (hfile : findConfigFile l.v.configPaths (cfgFileName l.v) fs = none) :
    loadStruct l fs env flds =
      loadRest ⟨{ l.v with automaticEnv := true }⟩ env flds := by
  simp only [loadStruct]
  have h : findConfigFile ({ l.v with automaticEnv := true } : Viper).configPaths
      (cfgFileName { l.v with automaticEnv := true }) fs = none := hfile
  rw [h]

theorem loadStruct_malformed (l : Loader) (fs : Fs) (env : EnvTable) (flds : SFields)
    (hfile : findConfigFile l.v.configPaths (cfgFileName l.v) fs = some .malformed) :
    loadStruct l fs env flds =
      ⟨some .configFileParse, .ptrStruct flds, ⟨{ l.v with automaticEnv := true }⟩⟩ := by
  simp only [loadStruct]
  have h : findConfigFile ({ l.v with automaticEnv := true } : Viper).configPaths
      (cfgFileName { l.v with automaticEnv := true }) fs = some .malformed := hfile
  rw [h]

theorem loadRest_eq (l : Loader) (env : EnvTable) (flds : SFields) :
    loadRest l env flds =
      ⟨none,
       .ptrStruct (unmarshalL ((flattenKeysL flds "").foldl bindEnv l.v) env ""
         (setDefaultsL flds)),
       ⟨(flattenKeysL flds "").foldl bindEnv l.v⟩⟩ := rfl

/-- Field of the target of a `Load` outcome at a dot path. -/
def tgtLookup : Tgt → List String → Option SField
  | .ptrStruct flds, segs => lookupPathL flds segs
  | _, _ => none

theorem load_final_leaf (l : Loader) (env : EnvTable) (flds : SFields)
    (segs : List String) (cur : CVal) (d : Option CVal)
    (hleaf : lookupPathL flds segs = some (.leaf cur d)) :
    tgtLookup (loadRest l env flds).target segs =
      some (.leaf ((vFind ((flattenKeysL flds "").foldl bindEnv l.v) env
        (pathApp "" segs)).getD (sdVal cur d)) d) := by
  rw [loadRest_eq]
  show lookupPathL (unmarshalL _ env "" (setDefaultsL flds)) segs = _
  rw [lookup_umL, lookup_sdL, hleaf]
  rfl

/-- C1: for a Key Path whose value is supplied by both the configuration
file and the environment, the value `Load` decodes into the target equals
the environment value, not the file value (Environment outranks File). -/
theorem load_env_wins_over_file (l : Loader) (fs : Fs) (env : EnvTable)
    (flds : SFields) (segs : List String) (cur : CVal) (d : Option CVal)
    (ev fv : CVal) (s : List (String × CVal))
    (hleaf : lookupPathL flds segs = some (.leaf cur d))
    (hfile : findConfigFile l.v.configPaths (cfgFileName l.v) fs = some (.parsed s))
    (_hkeyfile : List.lookup (pathApp "" segs) s = some fv)
    (henv : env (mergeWithEnvPfx l.v (pathApp "" segs)) = some ev) :
    (Load l fs env (.ptrStruct flds)).err = none ∧
    tgtLookup (Load l fs env (.ptrStruct flds)).target segs = some (.leaf ev d) := by
  rw [show Load l fs env (.ptrStruct flds) = loadStruct l fs env flds from rfl,
    loadStruct_parsed l fs env flds s hfile]
  constructor
  · rw [loadRest_eq]
  · rw [load_final_leaf _ env flds segs cur d hleaf]
    have hauto : ((flattenKeysL flds "").foldl bindEnv
        { l.v with automaticEnv := true, fileSettings := s }).automaticEnv = true := by
      rw [foldl_bindEnv_eq]
    have hmerge : mergeWithEnvPfx ((flattenKeysL flds "").foldl bindEnv
        { l.v with automaticEnv := true, fileSettings := s }) (pathApp "" segs) =
        mergeWithEnvPfx l.v (pathApp "" segs) := by
      rw [foldl_bindEnv_eq]
      exact merge_congr _ _ rfl rfl rfl _
    rw [vFind_auto_env _ hauto env _ ev (by rw [hmerge]; exact henv)]
    rfl

/-- Witness for C1 at the spec example: prefix CONF, key server.port in the
file as 7070 and in the environment (as CONF_SERVER_PORT) as 9090; the
decoded value is 9090. -/
theorem load_env_wins_over_file_witness :
    (Load (NewLoader [WithEnvPfx "CONF"])
        [("./config.yaml", .parsed [("server.port", .vInt 7070)])]
        (fun q => if q = "CONF_SERVER_PORT" then some (.vInt 9090) else none)
        (.ptrStruct (.cons "server"
          (.node (.cons "port" (.leaf (.vInt 0) (some (.vInt 8080))) .nil)) .nil))).err
      = none ∧
    tgtLookup (Load (NewLoader [WithEnvPfx "CONF"])
        [("./config.yaml", .parsed [("server.port", .vInt 7070)])]
        (fun q => if q = "CONF_SERVER_PORT" then some (.vInt 9090) else none)
        (.ptrStruct (.cons "server"
          (.node (.cons "port" (.leaf (.vInt 0) (some (.vInt 8080))) .nil)) .nil))).target
        ["server", "port"]
      = some (.leaf (.vInt 9090) (some (.vInt 8080))) :=
  load_env_wins_over_file _ _ _ _ ["server", "port"] (.vInt 0) (some (.vInt 8080))
    (.vInt 9090) (.vInt 7070) [("server.port", .vInt 7070)]
    (by rfl) (by rfl) (by rfl) (by rfl)

mutual
/-- Following the words of the spec for comparison with the code: the
target "equal to the declared defaults" — each leaf or box holds its
declared default; a field with no declared default keeps its current
value, which for a freshly declared target is its zero value. -/
def declaredDefaultsF : SField → SField
  | .leaf cur d => .leaf (d.getD cur) d
  | .box cur d => .box (d.getD cur) d
  | .node sub => .node (declaredDefaultsL sub)
/-- `declaredDefaultsF` over a struct field list. -/
def declaredDefaultsL : SFields → SFields
  | .nil => .nil
  | .cons n f rest => .cons n (declaredDefaultsF f) (declaredDefaultsL rest)
end

mutual
theorem sd_eq_declaredF : ∀ f : SField, allZeroF f = true →
    setDefaultsF f = declaredDefaultsF f
  | .leaf cur d, h => by
    rw [allZeroF] at h
    simp [setDefaultsF, declaredDefaultsF, sdVal, h]
  | .box cur d, h => by
    rw [allZeroF] at h
    simp [setDefaultsF, declaredDefaultsF, sdVal, h]
  | .node sub, h => by
    rw [allZeroF] at h
    simp only [setDefaultsF, declaredDefaultsF]
    rw [sd_eq_declaredL sub h]
theorem sd_eq_declaredL : ∀ l : SFields, allZeroL l = true →
    setDefaultsL l = declaredDefaultsL l
  | .nil, _ => rfl
  | .cons n f rest, h => by
    rw [allZeroL] at h
    simp only [Bool.and_eq_true] at h
    simp only [setDefaultsL, declaredDefaultsL]
    rw [sd_eq_declaredF f h.1, sd_eq_declaredL rest h.2]
end

/-- C2: with declared per-field defaults, no configuration file found and
no matching environment variable set, `Load` succeeds and leaves a fresh
(zero-valued) target equal to the declared defaults: defaults are applied
onto the target before the merged values are decoded, and a field with
neither a File nor an Environment value retains its default rather than a
zero value. -/
theorem load_defaults_when_no_sources (l : Loader) (fs : Fs) (env : EnvTable)
    (flds : SFields)
    (hzero : allZeroL flds = true)
    (hfresh : l.v.fileSettings = [])
    (hnofile : findConfigFile l.v.configPaths (cfgFileName l.v) fs = none)
    (hnoenv : ∀ k ∈ getFlattenedStructKeys flds, env (mergeWithEnvPfx l.v k) = none) :
    (Load l fs env (.ptrStruct flds)).err = none ∧
    (Load l fs env (.ptrStruct flds)).target = .ptrStruct (declaredDefaultsL flds) := by
  rw [show Load l fs env (.ptrStruct flds) = loadStruct l fs env flds from rfl,
    loadStruct_notfound l fs env flds hnofile, loadRest_eq]
  refine ⟨rfl, ?_⟩
  have hauto : ((flattenKeysL flds "").foldl bindEnv
      { l.v with automaticEnv := true }).automaticEnv = true := by
    rw [foldl_bindEnv_eq]
  have hfilesv3 : ((flattenKeysL flds "").foldl bindEnv
      { l.v with automaticEnv := true }).fileSettings = [] := by
    rw [foldl_bindEnv_eq]
    exact hfresh
  have hnone : ∀ k ∈ flattenKeysL (setDefaultsL flds) "",
      vFind ((flattenKeysL flds "").foldl bindEnv { l.v with automaticEnv := true })
        env k = none := by
    intro k hk
    rw [flatten_sdL] at hk
    have hmerge : mergeWithEnvPfx ((flattenKeysL flds "").foldl bindEnv
        { l.v with automaticEnv := true }) k = mergeWithEnvPfx l.v k := by
      rw [foldl_bindEnv_eq]
      exact merge_congr _ _ rfl rfl rfl _
    rw [vFind_auto_noenv _ hauto env k (by rw [hmerge]; exact hnoenv k hk), hfilesv3]
    rfl
  rw [um_noopL _ env (setDefaultsL flds) "" hnone, sd_eq_declaredL flds hzero]

/-- Witness for C2: a fresh loader, empty file system and empty
environment leave the spec example schema at its declared default 8080. -/
theorem load_defaults_when_no_sources_witness :
    (Load (NewLoader []) [] (fun _ => none)
        (.ptrStruct (.cons "server"
          (.node (.cons "port" (.leaf (.vInt 0) (some (.vInt 8080))) .nil)) .nil))).err
      = none ∧
    (Load (NewLoader []) [] (fun _ => none)
        (.ptrStruct (.cons "server"
          (.node (.cons "port" (.leaf (.vInt 0) (some (.vInt 8080))) .nil)) .nil))).target
      = .ptrStruct (.cons "server"
          (.node (.cons "port" (.leaf (.vInt 8080) (some (.vInt 8080))) .nil)) .nil) :=
  load_defaults_when_no_sources _ _ _ _
    (by rfl) (by rfl) (by rfl) (fun k _ => rfl)

/-- C5: the environment variable consulted for a Key Path is
`UPPER(PREFIX + "_" + REPLACE(path))` under the configured replacement
rule; Key Path a.b.c with prefix X and the default replacer binds to
X_A_B_C; and with the file absent, setting that variable makes the decoded
field equal the environment value. -/
theorem env_name_round_trip (l : Loader) (fs : Fs) (env : EnvTable)
    (flds : SFields) (segs : List String) (cur : CVal) (d : Option CVal) (ev : CVal)
    (hpfx : l.v.envPfx ≠ "")
    (hleaf : lookupPathL flds segs = some (.leaf cur d))
    (hnofile : findConfigFile l.v.configPaths (cfgFileName l.v) fs = none)
    (henv : env (mergeWithEnvPfx l.v (pathApp "" segs)) = some ev) :
    mergeWithEnvPfx l.v (pathApp "" segs) =
      strUpper (l.v.envPfx ++ "_" ++
        strReplace (pathApp "" segs) l.v.replOld l.v.replNew) ∧
    mergeWithEnvPfx ((NewLoader [WithEnvPfx "X"]).v) "a.b.c" = "X_A_B_C" ∧
    (Load l fs env (.ptrStruct flds)).err = none ∧
    tgtLookup (Load l fs env (.ptrStruct flds)).target segs = some (.leaf ev d) := by
  refine ⟨?_, by decide, ?_, ?_⟩
  · unfold mergeWithEnvPfx applyReplacer
    rw [if_neg hpfx]
  · rw [show Load l fs env (.ptrStruct flds) = loadStruct l fs env flds from rfl,
      loadStruct_notfound l fs env flds hnofile, loadRest_eq]
  · rw [show Load l fs env (.ptrStruct flds) = loadStruct l fs env flds from rfl,
      loadStruct_notfound l fs env flds hnofile]
    rw [load_final_leaf _ env flds segs cur d hleaf]
    have hauto : ((flattenKeysL flds "").foldl bindEnv
        { l.v with automaticEnv := true }).automaticEnv = true := by
      rw [foldl_bindEnv_eq]
    have hmerge : mergeWithEnvPfx ((flattenKeysL flds "").foldl bindEnv
        { l.v with automaticEnv := true }) (pathApp "" segs) =
        mergeWithEnvPfx l.v (pathApp "" segs) := by
      rw [foldl_bindEnv_eq]
      exact merge_congr _ _ rfl rfl rfl _
    rw [vFind_auto_env _ hauto env _ ev (by rw [hmerge]; exact henv)]
    rfl

/-- Witness for C5: prefix X, Key Path a.b.c, variable X_A_B_C set, no
file; the decoded value is the environment value. -/
theorem env_name_round_trip_witness :
    mergeWithEnvPfx ((NewLoader [WithEnvPfx "X"]).v) (pathApp "" ["a", "b", "c"]) =
      strUpper ((NewLoader [WithEnvPfx "X"]).v.envPfx ++ "_" ++
        strReplace (pathApp "" ["a", "b", "c"])
          ((NewLoader [WithEnvPfx "X"]).v.replOld)
          ((NewLoader [WithEnvPfx "X"]).v.replNew)) ∧
    mergeWithEnvPfx ((NewLoader [WithEnvPfx "X"]).v) "a.b.c" = "X_A_B_C" ∧
    (Load (NewLoader [WithEnvPfx "X"]) []
        (fun q => if q = "X_A_B_C" then some (.vStr "hello") else none)
        (.ptrStruct (.cons "a" (.node (.cons "b" (.node (.cons "c"
          (.leaf (.vStr "") none) .nil)) .nil)) .nil))).err = none ∧
    tgtLookup (Load (NewLoader [WithEnvPfx "X"]) []
        (fun q => if q = "X_A_B_C" then some (.vStr "hello") else none)
        (.ptrStruct (.cons "a" (.node (.cons "b" (.node (.cons "c"
          (.leaf (.vStr "") none) .nil)) .nil)) .nil))).target ["a", "b", "c"]
      = some (.leaf (.vStr "hello") none) :=
  env_name_round_trip _ _ _ _ ["a", "b", "c"] (.vStr "") none (.vStr "hello")
    (by decide) (by rfl) (by rfl) (by rfl)

/-- C3: absence of a matching configuration file is not an error, while a
matching file that fails to parse makes `Load` return the parse error. -/
theorem load_file_absent_vs_malformed (l : Loader) (fs : Fs) (env : EnvTable)
    (flds : SFields) :
    (findConfigFile l.v.configPaths (cfgFileName l.v) fs = none →
      (Load l fs env (.ptrStruct flds)).err = none) ∧
    (findConfigFile l.v.configPaths (cfgFileName l.v) fs = some .malformed →
      (Load l fs env (.ptrStruct flds)).err = some .configFileParse) := by
  constructor
  · intro hnofile
    rw [show Load l fs env (.ptrStruct flds) = loadStruct l fs env flds from rfl,
      loadStruct_notfound l fs env flds hnofile, loadRest_eq]
  · intro hbad
    rw [show Load l fs env (.ptrStruct flds) = loadStruct l fs env flds from rfl,
      loadStruct_malformed l fs env flds hbad]

/-- Witness for C3: an empty file system yields no error; a malformed
./config.yaml yields the parse error. -/
theorem load_file_absent_vs_malformed_witness :
    (Load (NewLoader []) [] (fun _ => none)
      (.ptrStruct (.cons "x" (.leaf (.vInt 0) none) .nil))).err = none ∧
    (Load (NewLoader []) [("./config.yaml", .malformed)] (fun _ => none)
      (.ptrStruct (.cons "x" (.leaf (.vInt 0) none) .nil))).err
        = some .configFileParse :=
  ⟨(load_file_absent_vs_malformed (NewLoader []) [] (fun _ => none)
      (.cons "x" (.leaf (.vInt 0) none) .nil)).1 (by rfl),
   (load_file_absent_vs_malformed (NewLoader []) [("./config.yaml", .malformed)]
      (fun _ => none) (.cons "x" (.leaf (.vInt 0) none) .nil)).2 (by rfl)⟩

/-- C4: a target that is not a pointer to a struct is rejected with
`InvalidTargetError`; the target and loader are left untouched and the
outcome does not depend on the file system or the environment, so the
rejection happens before any input/output. -/
theorem load_invalid_target (l : Loader) (fs : Fs) (env : EnvTable) (t : Tgt)
    (h : ∀ flds, t ≠ .ptrStruct flds) :
    (∃ msg, (Load l fs env t).err = some (.invalidTarget msg)) ∧
    (Load l fs env t).target = t ∧
    (Load l fs env t).loader = l ∧
    (∀ (fs' : Fs) (env' : EnvTable), Load l fs' env' t = Load l fs env t) := by
  cases t with
  | ptrStruct flds => exact absurd rfl (h flds)
  | ptrOther k =>
    exact ⟨⟨"require ptr to a struct for Load. got ptr to " ++ k, rfl⟩, rfl, rfl,
      fun _ _ => rfl⟩
  | nonPtr k =>
    exact ⟨⟨"require ptr to a struct for Load. Got " ++ k, rfl⟩, rfl, rfl,
      fun _ _ => rfl⟩

/-- Witness for C4 at a non-pointer int target. -/
theorem load_invalid_target_witness :
    (∃ msg, (Load (NewLoader []) [] (fun _ => none) (.nonPtr "int")).err
      = some (.invalidTarget msg)) ∧
    (Load (NewLoader []) [] (fun _ => none) (.nonPtr "int")).target = .nonPtr "int" ∧
    (Load (NewLoader []) [] (fun _ => none) (.nonPtr "int")).loader = NewLoader [] ∧
    (∀ (fs' : Fs) (env' : EnvTable),
      Load (NewLoader []) fs' env' (.nonPtr "int") =
        Load (NewLoader []) [] (fun _ => none) (.nonPtr "int")) :=
  load_invalid_target (NewLoader []) [] (fun _ => none) (.nonPtr "int")
    (fun _ heq => Tgt.noConfusion heq)

/-- C6: for a schema instance with duplicate-free field names, the key
flattener produces exactly the dot-delimited paths of the fields reached
by recursing into nested structured fields and stopping at scalar leaves
and at map- or slice-typed fields, so such a field contributes exactly the
Key Path of the containing field and its elements contribute none. -/
theorem flattener_keys_characterization (flds : SFields) (k : String)
    (hwf : wfNamesL flds = true) :
    k ∈ getFlattenedStructKeys flds ↔
      ∃ segs f, lookupPathL flds segs = some f ∧ isLeafLike f = true ∧
        k = pathApp "" segs :=
  mem_flattenL_iff flds "" k hwf

/-- Witness for C6: a schema with a nested struct and a populated
map-typed field; its key set is characterised at the key of the map field. -/
theorem flattener_keys_characterization_witness :
    wfNamesL (.cons "db" (.node (.cons "host" (.leaf (.vStr "") none) .nil))
      (.cons "tags" (.box (.vStrMap [("a", "1"), ("b", "2")]) none) .nil)) = true ∧
    ("tags" ∈ getFlattenedStructKeys
        (.cons "db" (.node (.cons "host" (.leaf (.vStr "") none) .nil))
          (.cons "tags" (.box (.vStrMap [("a", "1"), ("b", "2")]) none) .nil)) ↔
      ∃ segs f,
        lookupPathL (.cons "db" (.node (.cons "host" (.leaf (.vStr "") none) .nil))
          (.cons "tags" (.box (.vStrMap [("a", "1"), ("b", "2")]) none) .nil)) segs
            = some f ∧
        isLeafLike f = true ∧ "tags" = pathApp "" segs) :=
  ⟨by decide,
   flattener_keys_characterization
     (.cons "db" (.node (.cons "host" (.leaf (.vStr "") none) .nil))
       (.cons "tags" (.box (.vStrMap [("a", "1"), ("b", "2")]) none) .nil))
     "tags" (by decide)⟩

theorem Load_ptrStruct (l : Loader) (fs : Fs) (env : EnvTable) (flds : SFields) :
    Load l fs env (.ptrStruct flds) = loadStruct l fs env flds := rfl

theorem viperEta_auto_fs (v : Viper) (s : List (String × CVal))
    (h1 : v.automaticEnv = true) (h2 : v.fileSettings = s) :
    { v with automaticEnv := true, fileSettings := s } = v := by
  cases v
  simp only at h1 h2
  subst h1
  subst h2
  rfl

/-- C7: `Load` is idempotent in its observable result: with the file
system and environment unchanged, running `Load` again on the loader and
target a first call left behind returns the identical outcome (same error
status, same target values, same loader state). -/
theorem load_idempotent (l : Loader) (fs : Fs) (env : EnvTable) (t : Tgt) :
    Load (Load l fs env t).loader fs env (Load l fs env t).target = Load l fs env t := by
  cases t with
  | ptrOther k => rfl
  | nonPtr k => rfl
  | ptrStruct flds =>
    cases hfc : findConfigFile l.v.configPaths (cfgFileName l.v) fs with
    | none =>
      rw [Load_ptrStruct, loadStruct_notfound l fs env flds hfc, loadRest_eq]
      dsimp only
      rw [Load_ptrStruct]
      have hfc2 : findConfigFile ((flattenKeysL flds "").foldl bindEnv
          { l.v with automaticEnv := true }).configPaths
          (cfgFileName ((flattenKeysL flds "").foldl bindEnv
            { l.v with automaticEnv := true })) fs = none := by
        rw [foldl_bindEnv_eq]
        exact hfc
      rw [loadStruct_notfound _ fs env _ hfc2, loadRest_eq]
      dsimp only
      have hauto3 : ((flattenKeysL flds "").foldl bindEnv
          { l.v with automaticEnv := true }).automaticEnv = true := by
        rw [foldl_bindEnv_eq]
      have hbound : ∀ k ∈ flattenKeysL flds "",
          ((flattenKeysL flds "").foldl bindEnv
            { l.v with automaticEnv := true }).boundKeys.contains k = true := by
        intro k hk
        rw [foldl_bindEnv_eq]
        exact mem_foldl_bindKeys _ _ _ hk
      have hkeys2 : flattenKeysL (unmarshalL ((flattenKeysL flds "").foldl bindEnv
          { l.v with automaticEnv := true }) env "" (setDefaultsL flds)) "" =
          flattenKeysL flds "" := by
        rw [flatten_umL, flatten_sdL]
      rw [viperEta_auto _ hauto3, hkeys2, foldl_bindEnv_eq,
        foldl_bindKeys_noop _ _ hbound, um_sd_stableL]
    | some fr =>
      cases fr with
      | malformed =>
        rw [Load_ptrStruct, loadStruct_malformed l fs env flds hfc]
        dsimp only
        rw [Load_ptrStruct]
        have hfc2 : findConfigFile ({ l.v with automaticEnv := true } : Viper).configPaths
            (cfgFileName { l.v with automaticEnv := true }) fs = some .malformed := hfc
        rw [loadStruct_malformed _ fs env _ hfc2]
      | parsed s =>
        rw [Load_ptrStruct, loadStruct_parsed l fs env flds s hfc, loadRest_eq]
        dsimp only
        rw [Load_ptrStruct]
        have hfc2 : findConfigFile ((flattenKeysL flds "").foldl bindEnv
            { l.v with automaticEnv := true, fileSettings := s }).configPaths
            (cfgFileName ((flattenKeysL flds "").foldl bindEnv
              { l.v with automaticEnv := true, fileSettings := s })) fs
            = some (.parsed s) := by
          rw [foldl_bindEnv_eq]
          exact hfc
        rw [loadStruct_parsed _ fs env _ s hfc2, loadRest_eq]
        dsimp only
        have hauto3 : ((flattenKeysL flds "").foldl bindEnv
            { l.v with automaticEnv := true, fileSettings := s }).automaticEnv = true := by
          rw [foldl_bindEnv_eq]
        have hfs3 : ((flattenKeysL flds "").foldl bindEnv
            { l.v with automaticEnv := true, fileSettings := s }).fileSettings = s := by
          rw [foldl_bindEnv_eq]
        have hbound : ∀ k ∈ flattenKeysL flds "",
            ((flattenKeysL flds "").foldl bindEnv
              { l.v with automaticEnv := true, fileSettings := s }).boundKeys.contains k
              = true := by
          intro k hk
          rw [foldl_bindEnv_eq]
          exact mem_foldl_bindKeys _ _ _ hk
        have hkeys2 : flattenKeysL (unmarshalL ((flattenKeysL flds "").foldl bindEnv
            { l.v with automaticEnv := true, fileSettings := s }) env ""
            (setDefaultsL flds)) "" = flattenKeysL flds "" := by
          rw [flatten_umL, flatten_sdL]
        rw [viperEta_auto_fs _ s hauto3 hfs3, hkeys2, foldl_bindEnv_eq,
          foldl_bindKeys_noop _ _ hbound, um_sd_stableL]

/-- C8: registering a Key Path for environment lookup twice leaves the
viper instance exactly as registering it once, and therefore has no effect
on any subsequently resolved value. -/
theorem bindEnv_idempotent (v : Viper) (p : String) :
    bindEnv (bindEnv v p) p = bindEnv v p ∧
    ∀ (env : EnvTable) (q : String),
      vFind (bindEnv (bindEnv v p) p) env q = vFind (bindEnv v p) env q := by
  have h : bindEnv (bindEnv v p) p = bindEnv v p := by
    unfold bindEnv
    dsimp only
    rw [bindKeys_noop _ p (bindKeys_contains_self v.boundKeys p)]
  exact ⟨h, fun env q => by rw [h]⟩

/-- C9: a loader built with no options uses config name "config", the
single path "./", type "yaml" and the dot-to-underscore key replacer; each
option rewrites exactly its own setting of the viper instance; and
`WithViper` replaces the whole instance, discarding every option applied
before it. -/
theorem loader_construction_options :
    (NewLoader [] = ⟨getViperWithDefaults⟩ ∧
      getViperWithDefaults.configName = "config" ∧
      getViperWithDefaults.configPaths = ["./"] ∧
      getViperWithDefaults.configType = "yaml" ∧
      getViperWithDefaults.replOld = "." ∧
      getViperWithDefaults.replNew = "_") ∧
    (∀ (l : Loader) (s : String),
      WithConfigName s l = ⟨{ l.v with configName := s }⟩ ∧
      WithConfigPath s l = ⟨{ l.v with configPaths := l.v.configPaths ++ [s] }⟩ ∧
      WithConfigType s l = ⟨{ l.v with configType := s }⟩ ∧
      WithEnvPfx s l = ⟨{ l.v with envPfx := s }⟩) ∧
    (∀ (l : Loader) (o n : String),
      WithEnvKeyReplacer o n l = ⟨{ l.v with replOld := o, replNew := n }⟩) ∧
    (∀ (vin : Viper) (l : Loader), WithViper vin l = ⟨vin⟩) ∧
    (∀ (pre post : List LoaderOption) (vin : Viper),
      NewLoader (pre ++ WithViper vin :: post) = NewLoader (WithViper vin :: post)) := by
  refine ⟨⟨rfl, rfl, rfl, rfl, rfl, rfl⟩, fun l s => ⟨rfl, rfl, rfl, rfl⟩,
    fun l o n => rfl, fun vin l => rfl, ?_⟩
  intro pre post vin
  unfold NewLoader
  rw [List.foldl_append]
  rfl

/-! ## The logrus field helper -/

/-- An argument passed to the variadic logging methods of `log/logrus.go`:
a string, or a value of any other type (represented by an integer). -/
inductive LArg where
  | aStr (s : String)
  | aInt (n : Int)
deriving DecidableEq, Repr

/-- The Go `map[string]interface{}` field map, as a key-to-value function. -/
def FieldMap : Type := String → Option LArg

/-- The empty field map. -/
def emptyFields : FieldMap := fun _ => none

/-- Map update, as assignment to a Go map key. -/
def setField (m : FieldMap) (k : String) (v : LArg) : FieldMap :=
  fun q => if q = k then some v else m q

/-- The loop body of `getFields`: for i = 1, 3, 5, ... the statement
`fieldMap[args[i-1].(string)] = args[i-1]` stores the key argument itself
as the value; a non-string key makes the type assertion panic (`none`). -/
def buildFields : FieldMap → List LArg → Option FieldMap
  | m, [] => some m
  | m, .aStr s :: _ :: rest => buildFields (setField m s (.aStr s)) rest
  | _, .aInt _ :: _ :: _ => none
  | m, [_] => some m

/-- `getFields` of `log/logrus.go`: with fewer than two arguments, or an
odd count, the guard `len(args) > 1 && len(args)%2 == 0` fails, the loop
is skipped and the map stays empty. -/
def getFields (args : List LArg) : Option FieldMap :=
  if args.length > 1 && args.length % 2 == 0 then buildFields emptyFields args
  else some emptyFields

/-- The arguments at even positions (0-based): the keys of the loop. -/
def evenPosArgs : List LArg → List LArg
  | [] => []
  | [k] => [k]
  | k :: _ :: rest => k :: evenPosArgs rest

theorem buildFields_values : ∀ (args : List LArg) (m m' : FieldMap),
    buildFields m args = some m' → (∀ s v, m s = some v → v = .aStr s) →
    ∀ s v, m' s = some v → v = .aStr s
  | [], m, m', h, hm => by
    rw [buildFields] at h
    injection h with h
    subst h
    exact hm
  | [a], m, m', h, hm => by
    cases a with
    | aStr s =>
      rw [buildFields.eq_def] at h
      dsimp only at h
      injection h with h
      subst h
      exact hm
    | aInt i =>
      rw [buildFields.eq_def] at h
      dsimp only at h
      injection h with h
      subst h
      exact hm
  | .aStr s0 :: b :: rest, m, m', h, hm => by
    rw [buildFields] at h
    refine buildFields_values rest _ m' h ?_
    intro s v hv
    unfold setField at hv
    by_cases hs : s = s0
    · subst hs
      rw [if_pos rfl] at hv
      injection hv with hv
      rw [← hv]
    · rw [if_neg hs] at hv
      exact hm s v hv
  | .aInt i :: b :: rest, m, m', h, hm => by
    rw [buildFields] at h
    cases h

theorem buildFields_keeps : ∀ (args : List LArg) (m m' : FieldMap) (s : String),
    buildFields m args = some m' → m s = some (.aStr s) → m' s = some (.aStr s)
  | [], m, m', s, h, hs => by
    rw [buildFields] at h
    injection h with h
    subst h
    exact hs
  | [a], m, m', s, h, hs => by
    cases a with
    | aStr s0 =>
      rw [buildFields.eq_def] at h
      dsimp only at h
      injection h with h
      subst h
      exact hs
    | aInt i =>
      rw [buildFields.eq_def] at h
      dsimp only at h
      injection h with h
      subst h
      exact hs
  | .aStr s0 :: b :: rest, m, m', s, h, hs => by
    rw [buildFields] at h
    refine buildFields_keeps rest _ m' s h ?_
    unfold setField
    by_cases hseq : s = s0
    · subst hseq
      rw [if_pos rfl]
    · rw [if_neg hseq]
      exact hs
  | .aInt i :: b :: rest, m, m', s, h, hs => by
    rw [buildFields] at h
    cases h

theorem buildFields_inserts : ∀ (args : List LArg) (m m' : FieldMap) (s : String),
    args.length % 2 = 0 → buildFields m args = some m' →
    .aStr s ∈ evenPosArgs args → m' s = some (.aStr s)
  | [], _, _, _, _, _, hmem => by
    rw [evenPosArgs] at hmem
    cases hmem
  | [a], _, _, _, hlen, _, _ => by
    simp [List.length] at hlen
  | .aStr s0 :: b :: rest, m, m', s, hlen, h, hmem => by
    rw [buildFields] at h
    rw [evenPosArgs] at hmem
    rcases List.mem_cons.mp hmem with h1 | h2
    · have hss : s = s0 := by
        injection h1
      subst hss
      refine buildFields_keeps rest _ m' s h ?_
      unfold setField
      rw [if_pos rfl]
    · have hlen2 : rest.length % 2 = 0 := by
        simp [List.length] at hlen
        omega
      exact buildFields_inserts rest _ m' s hlen2 h h2
  | .aInt i :: b :: rest, m, m', s, hlen, h, hmem => by
    rw [buildFields] at h
    cases h

/-- C10: for the variadic arguments of the Logrus logging methods, a list
with fewer than two elements or odd length yields the empty field map (all
arguments are dropped); an even-length list of at least two binds each
even-position key argument to that key itself, so the odd-position value
arguments never appear in the emitted fields. -/
theorem getFields_behavior (args : List LArg) :
    ((args.length < 2 ∨ args.length % 2 = 1) → getFields args = some emptyFields) ∧
    (∀ m, getFields args = some m →
      (∀ s v, m s = some v → v = .aStr s) ∧
      (args.length ≥ 2 → args.length % 2 = 0 →
        ∀ s, .aStr s ∈ evenPosArgs args → m s = some (.aStr s))) := by
  constructor
  · intro h
    unfold getFields
    rw [if_neg]
    intro hc
    simp only [Bool.and_eq_true, decide_eq_true_eq, beq_iff_eq] at hc
    omega
  · intro m hm
    by_cases hg : (args.length > 1 && args.length % 2 == 0) = true
    · rw [getFields, if_pos hg] at hm
      simp only [Bool.and_eq_true, decide_eq_true_eq, beq_iff_eq] at hg
      constructor
      · exact buildFields_values args emptyFields m hm (fun s v hv => by cases hv)
      · intro _ _ s hmem
        exact buildFields_inserts args emptyFields m s hg.2 hm hmem
    · rw [getFields, if_neg hg] at hm
      injection hm with hm
      subst hm
      constructor
      · intro s v hv
        cases hv
      · intro h2 heven s hmem
        simp only [Bool.and_eq_true, decide_eq_true_eq, beq_iff_eq] at hg
        omega

/-- Witness for C10: three arguments yield the empty map; the test call
(day, 11, month, aug) binds day to day and month to month, the keys to
themselves. -/
theorem getFields_behavior_witness :
    getFields [LArg.aStr "k", LArg.aInt 1, LArg.aInt 2] = some emptyFields ∧
    (∀ s v, (setField (setField emptyFields "day" (LArg.aStr "day")) "month"
      (LArg.aStr "month")) s = some v → v = LArg.aStr s) :=
  ⟨(getFields_behavior [LArg.aStr "k", LArg.aInt 1, LArg.aInt 2]).1 (Or.inr rfl),
   ((getFields_behavior
       [LArg.aStr "day", LArg.aInt 11, LArg.aStr "month", LArg.aStr "aug"]).2
     (setField (setField emptyFields "day" (LArg.aStr "day")) "month"
       (LArg.aStr "month")) rfl).1⟩
